import Mathlib

/-!
Shallow embedding of the court-registry ingestion pipeline
(repository `webmcp`, Python sources under `src/`).

The embedding follows the source files:
  * `src/services/storage.py`   — StorageService (save / load / calculate_hash)
  * `src/services/fetcher.py`   — FetcherPool (fetch_document / fetch_batch)
  * `src/services/parser.py`    — Parser (parse, _split_into_sections,
                                  _calculate_confidence, _create_empty_structure)
  * `src/services/embeddings.py`— EmbeddingService (generate_embeddings,
                                  chunk_text, count_tokens)
  * `src/services/change_monitor.py` — ChangeMonitor (discovery, check_for_changes)
  * `src/main.py`               — the coordinator (process_discovered_document,
                                  process_changed_document, reconciliation loop)

External effects are parameters of an `Env` record: the network (`httpx` GET),
the SHA-256 digest (`hashlib`), BeautifulSoup / PyPDF2 text extraction, the
regex entity extractors, the tiktoken tokenizer and the OpenAI embedding
provider.  Everything the repository itself computes is defined below and the
theorems are about those definitions.
-/

namespace CourtRegistry

/-- Raw document bytes (Python `bytes`) as a list of byte values. -/
abbrev Bytes := List Nat

/-- Text (Python `str`) as a list of characters. -/
abbrev Text := List Char

/-- A SHA-256 hex digest, modelled as an opaque hash value produced by the
`hashlib.sha256(...).hexdigest()` parameter; only equality of digests is ever
used by the pipeline. -/
abbrev Hash := Nat

/-- An embedding vector (`List[float]` in the source); float entries are
abstracted to integers since no code under `src/` inspects the numbers. -/
abbrev Vec := List Int

/-- Storage path produced by `StorageService.save` (`src/services/storage.py`
lines 95-125): the layout is `{root}/{doc_id}/{UTC-timestamp}.{ext}`.  The
timestamp is modelled by a monotone counter `stamp` (the coordinator's clock),
so successive saves get fresh paths. -/
structure StoragePath where
  docId : Nat
  stamp : Nat
  ext : String
deriving DecidableEq, Repr

/-- The blob store contents: an association from paths to the byte strings
written there.  `save` prepends, `load` finds the most recent entry. -/
abbrev Store := List (StoragePath × Bytes)

/-- `StorageService.save` (`src/services/storage.py` lines 83-128): writes
`content` at a fresh timestamped path under `doc_id` and returns the path.
The clock models `datetime.utcnow().strftime(...)`. -/
def StorageService.save (store : Store) (clock : Nat) (docId : Nat)
    (content : Bytes) (ext : String) : Store × StoragePath × Nat :=
  let path : StoragePath := ⟨docId, clock, ext⟩
  ((path, content) :: store, path, clock + 1)

/-- `StorageService.load` (`src/services/storage.py` lines 130-153): read the
bytes stored at `path`. -/
def StorageService.load (store : Store) (path : StoragePath) : Option Bytes :=
  (store.find? (fun e => e.1 = path)).map (fun e => e.2)

/-- Parameters of the environment: every effectful library call made by the
pipeline.  `net url = none` models a terminal fetch failure (HTTP 404 or all
retries exhausted); `net url = some (content, contentType)` a 2xx response. -/
structure Env where
  net : String → Option (Bytes × Text)
  sha : Bytes → Hash
  soupText : Bytes → Except Unit Text
  pdfText : Bytes → Except Unit Text
  extractCourt : Text → Option Text
  extractJudge : Text → Option Text
  extractDate : Text → Option Text
  extractCaseNumber : Text → Option Text
  encodeTok : Text → List Nat
  decodeTok : Nat → Text
  provider : List Text → Except Unit (List Vec)
  batch_size : Nat
  chunk_size : Nat

/-- `StorageService.calculate_hash` (`src/services/storage.py` lines 155-157):
`hashlib.sha256(content).hexdigest()`. -/
def StorageService.calculate_hash (E : Env) (content : Bytes) : Hash :=
  E.sha content

/-- Case-insensitive substring test `key in s.lower()` where `key` is already
lower-case; `Char.toLower` agrees with Python `str.lower` on the ASCII
keywords used by the source. -/
def containsLower (key : Text) (s : Text) : Bool :=
  decide (key <:+: s.map Char.toLower)

/-- Result record of `FetcherPool.fetch_document`
(`src/services/fetcher.py` lines 86-94). -/
structure FetchResult where
  content : Bytes
  hash : Hash
  storage_path : StoragePath
  content_type : Text
  extension : String
deriving DecidableEq, Repr

/-- `FetcherPool.fetch_document` (`src/services/fetcher.py` lines 36-122).
The retry loop with exponential backoff either eventually receives a 2xx
response (`net url = some _`) or terminates with `None` (HTTP 404, or the
retries are exhausted); the timing of the backoff is not modelled.  On
success the extension is `pdf` iff the content type contains `"pdf"`
(lines 66-70), the SHA-256 of the body is computed (line 78) and the body is
saved to storage (line 83). -/
def FetcherPool.fetch_document (E : Env) (store : Store) (clock : Nat)
    (url : String) (docId : Nat) : Option FetchResult × Store × Nat :=
  match E.net url with
  | none => (none, store, clock)
  | some (content, contentType) =>
    let ext := if containsLower ['p', 'd', 'f'] contentType then "pdf" else "html"
    let contentHash := StorageService.calculate_hash E content
    let (store', path, clock') := StorageService.save store clock docId content ext
    (some ⟨content, contentHash, path, contentType, ext⟩, store', clock')

/-- Per-slot outcome of one task in `asyncio.gather(..., return_exceptions=True)`
(`src/services/fetcher.py` line 144): either an exception escaped the task, or
`fetch_document` returned (`none` = terminal failure, `some r` = success). -/
abbrev Slot (α : Type) := Except Unit (Option α)

/-- The result-collection stage of `FetcherPool.fetch_batch`
(`src/services/fetcher.py` lines 147-167): exceptions and `None` results are
filtered out and only the successful fetch results are returned. -/
def FetcherPool.fetch_batch_collect {α : Type} (results : List (Slot α)) : List α :=
  results.filterMap (fun r =>
    match r with
    | Except.ok (some x) => some x
    | _ => none)

/-- The value carried by a successful slot, `none` for exception or failure
slots. -/
def slotValue {α : Type} : Slot α → Option α
  | Except.ok (some x) => some x
  | _ => none

/-- Token/batch slicing loop `for i in range(0, len(l), m): l[i:i+m]` used by
`EmbeddingService.chunk_text` (`src/services/embeddings.py` lines 87-91) and
by the batching loop of `generate_embeddings` (lines 37-38), written with the
list length as structural fuel.  For `m = 0` Python's `range` would raise;
every theorem about this function assumes `0 < m`. -/
def chunksOfGo {α : Type} (m : Nat) : Nat → List α → List (List α)
  | _, [] => []
  | 0, _ :: _ => []
  | fuel + 1, x :: xs => (x :: xs.take (m - 1)) :: chunksOfGo m fuel (xs.drop (m - 1))

/-- Slice a list into consecutive chunks of `m` elements (the last chunk may
be shorter), as `l[i:i+m]` for `i in range(0, len(l), m)`. -/
def chunksOf {α : Type} (m : Nat) (l : List α) : List (List α) :=
  chunksOfGo m l.length l

/-- `tiktoken` decoding of a token sequence: the concatenation of the byte
strings of the individual tokens (`self.encoding.decode`,
`src/services/embeddings.py` line 90). -/
def EmbeddingService.decode (E : Env) (tokens : List Nat) : Text :=
  tokens.flatMap E.decodeTok

/-- `EmbeddingService.count_tokens` (`src/services/embeddings.py` lines 95-97):
`len(self.encoding.encode(text))`. -/
def EmbeddingService.count_tokens (E : Env) (text : Text) : Nat :=
  (E.encodeTok text).length

/-- `EmbeddingService.chunk_text` (`src/services/embeddings.py` lines 69-93):
encode the text, slice the token list into runs of at most `max_tokens`
(defaulting to the configured chunk size) and decode each run. -/
def EmbeddingService.chunk_text (E : Env) (maxTokens : Option Nat) (text : Text) :
    List Text :=
  let m := maxTokens.getD E.chunk_size
  (chunksOf m (E.encodeTok text)).map (EmbeddingService.decode E)

/-- `EmbeddingService.generate_embeddings` (`src/services/embeddings.py`
lines 21-54): empty input yields `[]`; otherwise the texts are processed in
batches of `batch_size` inside one `try`, concatenating the per-batch vectors;
if any provider call raises, the exception handler returns `[]` — the whole
batch fails, no partial prefix is ever returned. -/
def EmbeddingService.generate_embeddings (E : Env) (texts : List Text) : List Vec :=
  if texts.isEmpty then []
  else
    match (chunksOf E.batch_size texts).mapM E.provider with
    | Except.ok results => results.flatten
    | Except.error _ => []

/-- A text block produced by the section splitter
(`src/services/parser.py` lines 262-265): the section type and the lines of
the block joined by newlines. -/
structure Block where
  type : String
  text : Text
deriving DecidableEq, Repr

/-- The `section_types` list of `Parser._split_into_sections`
(`src/services/parser.py` line 250). -/
def Parser.section_types : List String :=
  ["FACTS", "CLAIMS", "ARGUMENTS", "LAW_REFERENCES", "COURT_REASONING", "DECISION"]

/-- The heading keyword of a section type:
`section_type.lower().replace('_', ' ')` (`src/services/parser.py` line 260).
The section-type constants are ASCII, so per-character lowering agrees with
Python `str.lower`. -/
def Parser.keywordOf (sectionType : String) : Text :=
  sectionType.toList.map (fun c => if c = '_' then ' ' else c.toLower)

/-- The inner loop test of `Parser._split_into_sections`
(`src/services/parser.py` lines 259-268): the first section type whose
keyword occurs in the lowered line, if any. -/
def Parser.find_section_type (line : Text) : Option String :=
  Parser.section_types.find? (fun st => containsLower (Parser.keywordOf st) line)

/-- Join the accumulated lines of a section with `'\n'.join(current_text)`
(`src/services/parser.py` line 264). -/
def joinLines (lines : List Text) : Text :=
  List.intercalate ['\n'] lines

/-- The line loop of `Parser._split_into_sections`
(`src/services/parser.py` lines 253-278), carrying the current section (type
and accumulated lines) through the remaining lines.  A keyword line closes
the current section (if any) and opens a new one containing that line; a
non-keyword line is appended to the current section, or discarded when no
section is open yet; at the end the open section is flushed. -/
def Parser.splitGo (cur : Option (String × List Text)) : List Text → List (String × List Text)
  | [] => cur.toList
  | line :: rest =>
    match Parser.find_section_type line with
    | some st => cur.toList ++ Parser.splitGo (some (st, [line])) rest
    | none =>
      match cur with
      | some (st, acc) => Parser.splitGo (some (st, acc ++ [line])) rest
      | none => Parser.splitGo none rest

/-- The blocks of `Parser._split_into_sections` before the final newline
join: section type together with the list of lines of the block. -/
def Parser.splitBlocks (lines : List Text) : List (String × List Text) :=
  Parser.splitGo none lines

/-- `Parser._split_into_sections` (`src/services/parser.py` lines 247-280):
split the text into lines at `'\n'`, group them into keyword-delimited
sections, and join each section's lines back with newlines. -/
def Parser.split_into_sections (text : Text) : List Block :=
  (Parser.splitBlocks (text.splitOn '\n')).map (fun b => ⟨b.1, joinLines b.2⟩)

/-- `Parser._calculate_confidence` (`src/services/parser.py` lines 286-295):
`0.3` for a court, `0.3` for a judge, `0.4` for a date, capped at `1.0`.
The Python float arithmetic is modelled over `ℚ`; on the eight reachable
sums the float computation realizes the same values and the cap, so nothing
the claims state is affected. -/
def Parser.calculate_confidence (court judge date : Option Text) : ℚ :=
  let score : ℚ := 0
  let score := if court.isSome then score + 3 / 10 else score
  let score := if judge.isSome then score + 3 / 10 else score
  let score := if date.isSome then score + 4 / 10 else score
  min score 1

/-- The structured record returned by the parser
(`src/services/parser.py` lines 64-82).  Fields the claims never observe
(`parties`, `claims`, `law_references`, `decision`, `amounts`,
`appeal_possible`, `parser_version`, `parsed_at`, `doc_id`, `case_id`,
`source_hash`) are projected away. -/
structure ParsedData where
  court : Option Text
  judge : Option Text
  date : Option Text
  case_number : Option Text
  text_blocks : List Block
  confidence : ℚ
deriving DecidableEq, Repr

/-- `Parser._create_empty_structure` (`src/services/parser.py` lines 297-317):
all entity fields null, no text blocks, confidence `0.0`. -/
def Parser.empty_structure : ParsedData :=
  { court := none, judge := none, date := none, case_number := none,
    text_blocks := [], confidence := 0 }

/-- The shared extraction body of `Parser._parse_html` and `Parser._parse_text`
(`src/services/parser.py` lines 52-82 and 113-142): run the pattern
extractors on the text, split it into sections and compute the confidence. -/
def Parser.parse_text (E : Env) (text : Text) : ParsedData :=
  { court := E.extractCourt text,
    judge := E.extractJudge text,
    date := E.extractDate text,
    case_number := E.extractCaseNumber text,
    text_blocks := Parser.split_into_sections text,
    confidence := Parser.calculate_confidence
      (E.extractCourt text) (E.extractJudge text) (E.extractDate text) }

/-- `Parser._parse_html` (`src/services/parser.py` lines 41-82): BeautifulSoup
text extraction (which may raise, modelled by `soupText`) followed by the
pattern extractors and the section split. -/
def Parser.parse_html (E : Env) (content : Bytes) : Except Unit ParsedData :=
  (E.soupText content).map (Parser.parse_text E)

/-- `Parser._parse_pdf` (`src/services/parser.py` lines 84-109): PyPDF2 text
extraction; on any failure its own handler returns the empty structure,
otherwise it falls through to `_parse_text`. -/
def Parser.parse_pdf (E : Env) (content : Bytes) : ParsedData :=
  match E.pdfText content with
  | Except.error _ => Parser.empty_structure
  | Except.ok text => Parser.parse_text E text

/-- `Parser.parse` (`src/services/parser.py` lines 20-39): dispatch on
`'pdf' in content_type.lower()`; any exception from the HTML branch is caught
and the empty structure is returned — `parse` never raises (it is a total
function of its inputs). -/
def Parser.parse (E : Env) (content : Bytes) (contentType : Text) : ParsedData :=
  if containsLower ['p', 'd', 'f'] contentType then
    Parser.parse_pdf E content
  else
    match Parser.parse_html E content with
    | Except.ok d => d
    | Except.error _ => Parser.empty_structure

/-- Row of the `documents` table (`src/models.py`): identifiers (UUIDs in
the source) are modelled as naturals drawn from a fresh counter.  The `Case`
table is not modelled: no claim observes it. -/
structure DocumentRec where
  id : Nat
  current_version_id : Option Nat
deriving DecidableEq, Repr

/-- Row of the `document_versions` table (`src/models.py` /
`src/main.py` lines 335-344). -/
structure VersionRec where
  id : Nat
  document_id : Nat
  version_number : Nat
  source_url : String
  source_hash : Hash
  raw_storage_path : StoragePath
deriving DecidableEq, Repr

/-- Row of the `document_sections` table (`src/main.py` lines 371-377). -/
structure SectionRec where
  id : Nat
  document_version_id : Nat
  section_type : String
  order_index : Nat
  text : Text
deriving DecidableEq, Repr

/-- Row of the `embedding_chunks` table (`src/main.py` lines 392-399). -/
structure ChunkRec where
  id : Nat
  section_id : Nat
  chunk_index : Nat
  text : Text
  embedding_vector : Vec
  token_count : Nat
deriving DecidableEq, Repr

/-- A Kafka lifecycle event (`src/services/kafka_client.py`): the stage of a
`failed` event is one of `"discovery"`, `"fetch"`, `"parse"`. -/
inductive Event where
  | fetched (docId : Nat) (path : StoragePath) (sha256 : Hash)
  | parsed (docId : Nat) (versionId : Nat)
  | failed (docId : Nat) (stage : String)
deriving DecidableEq, Repr

/-- The metadata store tables the claims observe. -/
structure Db where
  documents : List DocumentRec
  versions : List VersionRec
  sections : List SectionRec
  chunks : List ChunkRec
deriving DecidableEq, Repr

/-- The whole mutable state of one coordinator process: database, blob store
with its timestamp clock, the fresh-UUID counter and the published events. -/
structure SysState where
  db : Db
  store : Store
  clock : Nat
  fresh : Nat
  events : List Event
deriving DecidableEq, Repr

/-- The chunk-insertion loop for one section (`src/main.py` lines 384-400):
generate embeddings for the section's chunks and insert one `EmbeddingChunk`
per `(chunk_text, embedding)` pair of `zip(chunks, embeddings)` —
`zip` truncates, so a failed (empty) embedding batch inserts no chunks.
Chunk ids are drawn consecutively from `freshStart`. -/
def buildChunks (E : Env) (freshStart : Nat) (secId : Nat)
    (chunkTexts : List Text) : List ChunkRec :=
  let embeddings := EmbeddingService.generate_embeddings E chunkTexts
  ((chunkTexts.zip embeddings).enum).map (fun p =>
    { id := freshStart + p.1, section_id := secId, chunk_index := p.1,
      text := p.2.1, embedding_vector := p.2.2,
      token_count := EmbeddingService.count_tokens E p.2.1 })

/-- The section-insertion loop
(`src/main.py` lines 370-400, identical at lines 510-536):
`for idx, section_data in enumerate(parsed_data['text_blocks'])` inserts a
`DocumentSection` with `order_index = idx`, then, when the section text is
non-empty, chunks it and inserts its `EmbeddingChunk`s.  Returns the next
fresh id together with the inserted sections and chunks. -/
def processBlocks (E : Env) (versionId : Nat) :
    Nat → Nat → List Block → Nat × List SectionRec × List ChunkRec
  | fresh, _, [] => (fresh, [], [])
  | fresh, idx, b :: bs =>
    let sec : SectionRec :=
      { id := fresh, document_version_id := versionId,
        section_type := b.type, order_index := idx, text := b.text }
    let chunks := if b.text.isEmpty then []
      else buildChunks E (fresh + 1) sec.id (EmbeddingService.chunk_text E none b.text)
    let rest := processBlocks E versionId (fresh + 1 + chunks.length) (idx + 1) bs
    (rest.1, sec :: rest.2.1, chunks ++ rest.2.2)

/-- The greatest `version_number` among a document's versions, `0` when the
document has none: the coordinator's
`query(DocumentVersion).filter(document_id == ...).order_by(version_number.desc()).first()`
(`src/main.py` lines 468-472) reads exactly this maximum. -/
def Db.maxVersionNumber (db : Db) (docId : Nat) : Nat :=
  ((db.versions.filter (fun v => v.document_id = docId)).map
    (fun v => v.version_number)).foldr max 0

/-- `process_discovered_document` (`src/main.py` lines 233-402).  Fetch the
URL; on terminal failure publish `failed(stage=fetch)` and stop.  Otherwise
publish `fetched`, parse (total — the parser catches its own errors), insert
a fresh `Document`, a `DocumentVersion` with `version_number = 1`, set
`current_version_id`, publish `parsed`, and insert the sections and chunks.
Event publishing always succeeds in the model (bus failures are logged and
ignored by the source); the `Case` upsert (lines 313-323) is not modelled. -/
def process_discovered_document (E : Env) (st : SysState) (docId : Nat)
    (url : String) : SysState :=
  match FetcherPool.fetch_document E st.store st.clock url docId with
  | (none, store', clock') =>
    { st with
        store := store', clock := clock',
        events := st.events ++ [Event.failed docId "fetch"] }
  | (some fr, store', clock') =>
    let parsed := Parser.parse E fr.content fr.content_type
    let versionId := st.fresh
    let version : VersionRec :=
      { id := versionId, document_id := docId,
        version_number := 1, source_url := url, source_hash := fr.hash,
        raw_storage_path := fr.storage_path }
    let document : DocumentRec := { id := docId, current_version_id := some versionId }
    let built := processBlocks E versionId (st.fresh + 1) 0 parsed.text_blocks
    { db := { documents := st.db.documents ++ [document],
              versions := st.db.versions ++ [version],
              sections := st.db.sections ++ built.2.1,
              chunks := st.db.chunks ++ built.2.2 },
      store := store', clock := clock', fresh := built.1,
      events := st.events ++
        [Event.fetched docId fr.storage_path (E.sha fr.content),
         Event.parsed docId versionId] }

/-- `process_changed_document` (`src/main.py` lines 405-538).  Re-fetch the
old version's URL; on terminal failure publish `failed(stage=fetch)` and
stop.  Otherwise publish `fetched`, parse, look up the document (return if it
vanished), compute the next version number as one plus the maximum existing
`version_number` (`(max_version.version_number if max_version else 0) + 1`,
lines 468-472), insert the new version, advance `current_version_id`,
publish `parsed` and insert sections and chunks. -/
def process_changed_document (E : Env) (st : SysState) (old : VersionRec) :
    SysState :=
  match FetcherPool.fetch_document E st.store st.clock old.source_url old.document_id with
  | (none, store', clock') =>
    { st with
        store := store', clock := clock',
        events := st.events ++ [Event.failed old.document_id "fetch"] }
  | (some fr, store', clock') =>
    let parsed := Parser.parse E fr.content fr.content_type
    let fetchedEvents := st.events ++
      [Event.fetched old.document_id fr.storage_path (E.sha fr.content)]
    match st.db.documents.find? (fun d => d.id = old.document_id) with
    | none =>
      { st with store := store', clock := clock', events := fetchedEvents }
    | some _ =>
      let nextVersionNum := Db.maxVersionNumber st.db old.document_id + 1
      let versionId := st.fresh
      let version : VersionRec :=
        { id := versionId, document_id := old.document_id,
          version_number := nextVersionNum, source_url := old.source_url,
          source_hash := fr.hash, raw_storage_path := fr.storage_path }
      let built := processBlocks E versionId (st.fresh + 1) 0 parsed.text_blocks
      { db := { documents := st.db.documents.map (fun d =>
                  if d.id = old.document_id
                  then { d with current_version_id := some versionId } else d),
                versions := st.db.versions ++ [version],
                sections := st.db.sections ++ built.2.1,
                chunks := st.db.chunks ++ built.2.2 },
        store := store', clock := clock', fresh := built.1,
        events := fetchedEvents ++ [Event.parsed old.document_id versionId] }

/-- A discovery tuple (`src/services/change_monitor.py` lines 183-188). -/
structure Discovered where
  doc_id : String
  url : String
deriving DecidableEq, Repr

/-- `ChangeMonitor._extract_doc_id_from_url`
(`src/services/change_monitor.py` lines 202-211): the path token directly
after `Document`. -/
def ChangeMonitor.extract_doc_id_from_url (url : String) : Option String :=
  let parts := url.splitOn "/"
  match parts.findIdx? (fun p => p = "Document") with
  | none => none
  | some idx => parts[idx + 1]?

/-- `ChangeMonitor._make_absolute_url`
(`src/services/change_monitor.py` lines 213-217). -/
def ChangeMonitor.make_absolute_url (baseUrl href : String) : String :=
  if href.startsWith "http" then href else baseUrl ++ href

/-- The per-link body shared by both discovery strategies
(`src/services/change_monitor.py` lines 167-193): extract the doc id (skip
the link when that fails) and skip the URL when a `DocumentVersion` with the
same `source_url` already exists. -/
def ChangeMonitor.discover_link (db : Db) (fullUrl : String) : Option Discovered :=
  match ChangeMonitor.extract_doc_id_from_url fullUrl with
  | none => none
  | some docId =>
    if (db.versions.find? (fun v => v.source_url = fullUrl)).isSome then none
    else some ⟨docId, fullUrl⟩

/-- `ChangeMonitor._discover_from_search`
(`src/services/change_monitor.py` lines 106-200): the `document_links`
extracted from the search page (an upstream input) are limited to 100, made
absolute, and filtered through the existing-`source_url` check. -/
def ChangeMonitor.discover_from_search (db : Db) (baseUrl : String)
    (documentLinks : List String) : List Discovered :=
  (documentLinks.take 100).filterMap (fun href =>
    ChangeMonitor.discover_link db (ChangeMonitor.make_absolute_url baseUrl href))

/-- `ChangeMonitor._discover_from_rss`
(`src/services/change_monitor.py` lines 60-104): the feed item links
(an upstream input) are limited to 100 and filtered through the same
existing-`source_url` check. -/
def ChangeMonitor.discover_from_rss (db : Db) (itemLinks : List String) :
    List Discovered :=
  (itemLinks.take 100).filterMap (ChangeMonitor.discover_link db)

/-- `ChangeMonitor.discover_documents`
(`src/services/change_monitor.py` lines 35-58): RSS discoveries followed by
search-page discoveries. -/
def ChangeMonitor.discover_documents (db : Db) (itemLinks : List String)
    (baseUrl : String) (documentLinks : List String) : List Discovered :=
  ChangeMonitor.discover_from_rss db itemLinks ++
    ChangeMonitor.discover_from_search db baseUrl documentLinks

/-- `ChangeMonitor.check_for_changes`
(`src/services/change_monitor.py` lines 219-242): re-fetch the version's URL
and compare the SHA-256 of the body with the stored `source_hash`; any fetch
error returns `false`. -/
def ChangeMonitor.check_for_changes (E : Env) (v : VersionRec) : Bool :=
  match E.net v.source_url with
  | none => false
  | some (content, _) => decide (StorageService.calculate_hash E content ≠ v.source_hash)

/-- One cycle of `run_reconciliation_loop` (`src/main.py` lines 190-230):
take a batch of at most 100 versions, and for each one that
`check_for_changes` reports changed, run `process_changed_document`. -/
def run_reconciliation_cycle (E : Env) (st : SysState) : SysState :=
  (st.db.versions.take 100).foldl (fun s v =>
    if ChangeMonitor.check_for_changes E v then process_changed_document E s v else s) st

/-- A document's versions in the metadata store. -/
def Db.versionsOf (db : Db) (docId : Nat) : List VersionRec :=
  db.versions.filter (fun v => v.document_id = docId)

/-- The invariant `current_version_ref refers to the version with the
maximum version_number among the document's versions`, for the document with
the given id. -/
def currentRefIsMax (db : Db) (docId : Nat) : Prop :=
  ∀ d ∈ db.documents, d.id = docId →
    ∃ v ∈ Db.versionsOf db docId, d.current_version_id = some v.id ∧
      ∀ w ∈ Db.versionsOf db docId, w.version_number ≤ v.version_number

/-- The invariant `sha256(load(v.raw_storage_path)) == v.source_hash` for a
single version: loading the bytes stored at the version's raw storage path
and hashing them yields exactly its recorded source hash. -/
def hashOk (E : Env) (store : Store) (v : VersionRec) : Prop :=
  (StorageService.load store v.raw_storage_path).map E.sha = some v.source_hash

instance (E : Env) (store : Store) (v : VersionRec) : Decidable (hashOk E store v) := by
  unfold hashOk
  infer_instance

/-! ## Concrete environments and states used by the witnesses -/

/-- A concrete happy-path environment: two URLs resolve, hashing is a
concrete fold, the soup text contains a `FACTS` line and a `DECISION` line,
the tokenizer is character-level, the provider answers every batch. -/
def witnessEnv : Env :=
  { net := fun u =>
      if u = "https://r/Document/42" then some ([1, 2, 3], "text/html".toList)
      else if u = "https://r/Document/7" then some ([9], "text/html".toList)
      else none,
    sha := fun b => b.foldl (fun a x => a * 1000 + x + 1) 7,
    soupText := fun _ => Except.ok ("facts line one\nmore\ndecision now".toList),
    pdfText := fun _ => Except.error (),
    extractCourt := fun _ => some ['C'],
    extractJudge := fun _ => none,
    extractDate := fun _ => some ['D'],
    extractCaseNumber := fun _ => none,
    encodeTok := fun t => t.map Char.toNat,
    decodeTok := fun n => [Char.ofNat n],
    provider := fun ts => Except.ok (ts.map (fun t => [(t.length : Int)])),
    batch_size := 2, chunk_size := 5 }

/-- Like `witnessEnv` but BeautifulSoup text extraction raises. -/
def witnessEnvParseFail : Env :=
  { witnessEnv with soupText := fun _ => Except.error () }

/-- Like `witnessEnv` but the embedding provider raises on every batch. -/
def witnessEnvEmbedFail : Env :=
  { witnessEnv with provider := fun _ => Except.error () }

/-- A character-level tokenizer environment for the chunking witness. -/
def witnessEnvC6 : Env :=
  { witnessEnv with encodeTok := fun t => t.map Char.toNat,
                    decodeTok := fun n => [Char.ofNat n] }

/-- The empty initial state. -/
def st0 : SysState :=
  { db := ⟨[], [], [], []⟩, store := [], clock := 0, fresh := 100, events := [] }

/-- A state holding one already-ingested document (id 7) with one version
whose raw bytes `[9]` sit in the store under a stamped path and whose hash
matches `witnessEnv.sha [9]`. -/
def stW : SysState :=
  { db := { documents := [⟨7, some 1⟩],
            versions := [⟨1, 7, 1, "https://r/Document/7",
              witnessEnv.sha [9], ⟨7, 0, "html"⟩⟩],
            sections := [], chunks := [] },
    store := [(⟨7, 0, "html"⟩, [9])], clock := 1, fresh := 100, events := [] }

/-! ## Helper lemmas -/

theorem chunksOfGo_flatten {α : Type} (m : Nat) :
    ∀ (fuel : Nat) (l : List α), l.length ≤ fuel →
      (chunksOfGo m fuel l).flatten = l := by
  intro fuel
  induction fuel with
  | zero =>
    intro l hl
    cases l with
    | nil => rfl
    | cons x xs => simp at hl
  | succ fuel ih =>
    intro l hl
    cases l with
    | nil => rfl
    | cons x xs =>
      have hdrop : (xs.drop (m - 1)).length ≤ fuel := by
        have h1 : (xs.drop (m - 1)).length ≤ xs.length := by
          simp [List.length_drop]
        have h2 : xs.length ≤ fuel := by
          simpa using Nat.le_of_succ_le_succ hl
        exact le_trans h1 h2
      have : (chunksOfGo m fuel (xs.drop (m - 1))).flatten = xs.drop (m - 1) :=
        ih (xs.drop (m - 1)) hdrop
      simp [chunksOfGo, this, List.take_append_drop]

theorem chunksOf_flatten {α : Type} (m : Nat) (l : List α) :
    (chunksOf m l).flatten = l :=
  chunksOfGo_flatten m l.length l le_rfl

theorem chunksOfGo_length_le {α : Type} (m : Nat) (hm : 0 < m) :
    ∀ (fuel : Nat) (l : List α), ∀ c ∈ chunksOfGo m fuel l, c.length ≤ m := by
  intro fuel
  induction fuel with
  | zero =>
    intro l c hc
    cases l with
    | nil => simp [chunksOfGo] at hc
    | cons x xs => simp [chunksOfGo] at hc
  | succ fuel ih =>
    intro l c hc
    cases l with
    | nil => simp [chunksOfGo] at hc
    | cons x xs =>
      simp only [chunksOfGo, List.mem_cons] at hc
      rcases hc with rfl | hc
      · have : (xs.take (m - 1)).length ≤ m - 1 := by
          simp [List.length_take]
        simp only [List.length_cons]
        omega
      · exact ih (xs.drop (m - 1)) c hc

theorem chunksOf_length_le {α : Type} (m : Nat) (hm : 0 < m) (l : List α) :
    ∀ c ∈ chunksOf m l, c.length ≤ m :=
  chunksOfGo_length_le m hm l.length l

/-! ## C7: parse confidence -/

/-- C7: `Parser._calculate_confidence` equals the weighted sum of the court
(0.3), judge (0.3) and date (0.4) indicators capped at 1.0; hence the
confidence is always in `[0, 1]` and is `0` exactly when court, judge and
date are all null. -/
theorem C7_confidence_weighted_sum (court judge date : Option Text) :
    Parser.calculate_confidence court judge date =
      min ((if court.isSome then (3 : ℚ) / 10 else 0) +
        (if judge.isSome then (3 : ℚ) / 10 else 0) +
        (if date.isSome then (4 : ℚ) / 10 else 0)) 1 ∧
    0 ≤ Parser.calculate_confidence court judge date ∧
    Parser.calculate_confidence court judge date ≤ 1 ∧
    (Parser.calculate_confidence court judge date = 0 ↔
      court = none ∧ judge = none ∧ date = none) := by
  cases court <;> cases judge <;> cases date <;>
    simp [Parser.calculate_confidence] <;> norm_num

/-! ## C4: batch fetch result collection -/

/-- C4 counterexample: with two input slots whose first task raised and whose
second succeeded with value 5, `fetch_batch` returns the one-element list
`[5]` — not one result slot per input with `null` in the failed position, so
callers cannot match results to inputs by index. -/
theorem C4_counterexample :
    FetcherPool.fetch_batch_collect [(Except.error () : Slot Nat), Except.ok (some 5)] = [5] ∧
    (FetcherPool.fetch_batch_collect
      [(Except.error () : Slot Nat), Except.ok (some 5)]).length ≠ 2 := by
  constructor
  · rfl
  · decide

/-- C4 (amended): for every input list, the batch fetch returns exactly the
successful results, in input order — the output, re-wrapped as successes,
is an order-preserving sublist of the per-slot outcomes and its length is
the number of successful slots; exception and terminal-failure slots are
dropped rather than kept as nulls. -/
theorem C4_batch_successes_in_order {α : Type} (results : List (Slot α)) :
    FetcherPool.fetch_batch_collect results = results.filterMap slotValue ∧
    ((FetcherPool.fetch_batch_collect results).map
      (fun x => (Except.ok (some x) : Slot α))).Sublist results ∧
    (FetcherPool.fetch_batch_collect results).length =
      results.countP (fun r => (slotValue r).isSome) := by
  refine ⟨?_, ?_, ?_⟩
  · induction results with
    | nil => rfl
    | cons r rs ih =>
      cases r with
      | error e => simpa [FetcherPool.fetch_batch_collect, slotValue,
          List.filterMap_cons] using ih
      | ok o =>
        cases o with
        | none => simpa [FetcherPool.fetch_batch_collect, slotValue,
            List.filterMap_cons] using ih
        | some x => simpa [FetcherPool.fetch_batch_collect, slotValue,
            List.filterMap_cons] using ih
  · induction results with
    | nil => simp [FetcherPool.fetch_batch_collect]
    | cons r rs ih =>
      cases r with
      | error e =>
        simp only [FetcherPool.fetch_batch_collect, List.filterMap_cons]
        exact List.Sublist.cons _ ih
      | ok o =>
        cases o with
        | none =>
          simp only [FetcherPool.fetch_batch_collect, List.filterMap_cons]
          exact List.Sublist.cons _ ih
        | some x =>
          simp only [FetcherPool.fetch_batch_collect, List.filterMap_cons, List.map_cons]
          exact List.Sublist.cons₂ _ ih
  · induction results with
    | nil => rfl
    | cons r rs ih =>
      cases r with
      | error e => simpa [FetcherPool.fetch_batch_collect, slotValue,
          List.filterMap_cons, List.countP_cons] using ih
      | ok o =>
        cases o with
        | none => simpa [FetcherPool.fetch_batch_collect, slotValue,
            List.filterMap_cons, List.countP_cons] using ih
        | some x => simpa [FetcherPool.fetch_batch_collect, slotValue,
            List.filterMap_cons, List.countP_cons] using ih

/-! ## C5: section splitting -/

theorem splitGo_flatten_some :
    ∀ (lines : List Text) (st : String) (acc : List Text),
      ((Parser.splitGo (some (st, acc)) lines).map Prod.snd).flatten = acc ++ lines := by
  intro lines
  induction lines with
  | nil => intro st acc; simp [Parser.splitGo]
  | cons line rest ih =>
    intro st acc
    cases h : Parser.find_section_type line with
    | some st' =>
      simp [Parser.splitGo, h, ih st' [line]]
    | none =>
      simp [Parser.splitGo, h, ih st (acc ++ [line])]

theorem splitGo_flatten_none :
    ∀ lines : List Text,
      ((Parser.splitGo none lines).map Prod.snd).flatten =
        lines.dropWhile (fun l => (Parser.find_section_type l).isNone) := by
  intro lines
  induction lines with
  | nil => rfl
  | cons line rest ih =>
    cases h : Parser.find_section_type line with
    | some st =>
      simp [Parser.splitGo, h, List.dropWhile_cons,
        splitGo_flatten_some rest st [line]]
    | none =>
      simp [Parser.splitGo, h, List.dropWhile_cons, ih]

theorem splitGo_types :
    ∀ (lines : List Text) (cur : Option (String × List Text)),
      (∀ p ∈ cur.toList, p.1 ∈ Parser.section_types) →
      ∀ b ∈ Parser.splitGo cur lines, b.1 ∈ Parser.section_types := by
  intro lines
  induction lines with
  | nil =>
    intro cur hcur b hb
    exact hcur b hb
  | cons line rest ih =>
    intro cur hcur b hb
    cases h : Parser.find_section_type line with
    | some st =>
      simp only [Parser.splitGo, h, List.mem_append] at hb
      rcases hb with hb | hb
      · exact hcur b hb
      · refine ih (some (st, [line])) ?_ b hb
        intro p hp
        simp only [Option.toList_some, List.mem_singleton] at hp
        subst hp
        exact List.mem_of_find?_eq_some h
    | none =>
      cases cur with
      | none =>
        simp only [Parser.splitGo, h] at hb
        exact ih none (by simp) b hb
      | some pr =>
        simp only [Parser.splitGo, h] at hb
        refine ih (some (pr.1, pr.2 ++ [line])) ?_ b hb
        intro p hp
        simp only [Option.toList_some, List.mem_singleton] at hp
        subst hp
        exact hcur pr (by simp)

/-- C5 counterexample: on the input `"x\nfacts ahead"` the splitter drops the
unclassified leading line `"x"` entirely — the result is a single `FACTS`
block that does not contain it, and no block is ever tagged `TEXT` — refuting
the claim that unclassified runs (including text before the first detected
heading) are tagged `TEXT` rather than dropped. -/
theorem C5_counterexample :
    Parser.split_into_sections ("x\nfacts ahead".toList) =
      [{ type := "FACTS", text := "facts ahead".toList }] ∧
    (∀ b ∈ Parser.split_into_sections ("x\nfacts ahead".toList),
      b.type ≠ "TEXT" ∧ ¬ 'x' ∈ b.text) := by
  constructor
  · rfl
  · decide

/-- C5 (amended): the splitter's blocks are in input order and partition
exactly the run of lines from the first detected heading onward — joining the
blocks' lines recovers `dropWhile (no heading keyword)` of the input lines —
every block is tagged with one of the six section types (`TEXT` is never
produced), and the lines before the first detected heading are dropped. -/
theorem C5_sections_in_order (text : Text) :
    Parser.split_into_sections text =
      (Parser.splitBlocks (text.splitOn '\n')).map (fun b => ⟨b.1, joinLines b.2⟩) ∧
    (∀ b ∈ Parser.splitBlocks (text.splitOn '\n'), b.1 ∈ Parser.section_types) ∧
    ((Parser.splitBlocks (text.splitOn '\n')).map Prod.snd).flatten =
      (text.splitOn '\n').dropWhile (fun l => (Parser.find_section_type l).isNone) := by
  refine ⟨rfl, ?_, ?_⟩
  · exact splitGo_types (text.splitOn '\n') none (by simp)
  · exact splitGo_flatten_none (text.splitOn '\n')

/-! ## C6: token chunking round-trip -/

theorem flatten_map_flatMap {α β : Type} (d : α → List β) :
    ∀ css : List (List α),
      (css.map (fun ts => ts.flatMap d)).flatten = css.flatten.flatMap d := by
  intro css
  induction css with
  | nil => rfl
  | cons c cs ih => simp [ih]

/-- C6: for every text and every positive `max_tokens`, `chunk_text` is the
in-order decoding of consecutive `max_tokens`-sized slices of the encoded
token list; concatenating the decoded chunks reconstructs the tokenizer
round-trip `decode(encode(t))` of the input, and each chunk is the decoding
of at most `max_tokens` consecutive tokens. -/
theorem C6_chunk_decode_roundtrip (E : Env) (t : Text) (m : Nat) (hm : 0 < m) :
    EmbeddingService.chunk_text E (some m) t =
      (chunksOf m (E.encodeTok t)).map (EmbeddingService.decode E) ∧
    (EmbeddingService.chunk_text E (some m) t).flatten =
      EmbeddingService.decode E (E.encodeTok t) ∧
    (∀ c ∈ chunksOf m (E.encodeTok t), c.length ≤ m) := by
  refine ⟨rfl, ?_, chunksOf_length_le m hm (E.encodeTok t)⟩
  show ((chunksOf m (E.encodeTok t)).map (EmbeddingService.decode E)).flatten = _
  rw [show EmbeddingService.decode E = fun ts => ts.flatMap E.decodeTok from rfl]
  rw [flatten_map_flatMap E.decodeTok (chunksOf m (E.encodeTok t)),
    chunksOf_flatten m (E.encodeTok t)]

/-- C6 witness: the chunking round-trip at a concrete tokenizer, text and
chunk size. -/
theorem C6_witness :
    EmbeddingService.chunk_text witnessEnvC6 (some 2) ['a', 'b', 'c'] =
      (chunksOf 2 (witnessEnvC6.encodeTok ['a', 'b', 'c'])).map
        (EmbeddingService.decode witnessEnvC6) ∧
    (EmbeddingService.chunk_text witnessEnvC6 (some 2) ['a', 'b', 'c']).flatten =
      EmbeddingService.decode witnessEnvC6 (witnessEnvC6.encodeTok ['a', 'b', 'c']) ∧
    (∀ c ∈ chunksOf 2 (witnessEnvC6.encodeTok ['a', 'b', 'c']), c.length ≤ 2) :=
  C6_chunk_decode_roundtrip witnessEnvC6 ['a', 'b', 'c'] 2 (by decide)

/-! ## Structure of the section/chunk insertion loop -/

theorem buildChunks_section_id (E : Env) (f sid : Nat) (cts : List Text) :
    ∀ c ∈ buildChunks E f sid cts, c.section_id = sid := by
  intro c hc
  simp only [buildChunks, List.mem_map] at hc
  obtain ⟨p, _, rfl⟩ := hc
  rfl

theorem buildChunks_token_count (E : Env) (f sid : Nat) (cts : List Text) :
    ∀ c ∈ buildChunks E f sid cts,
      c.token_count = EmbeddingService.count_tokens E c.text := by
  intro c hc
  simp only [buildChunks, List.mem_map] at hc
  obtain ⟨p, _, rfl⟩ := hc
  rfl

theorem enumFrom_map_fst {α : Type} :
    ∀ (l : List α) (n : Nat),
      (List.enumFrom n l).map (fun p => p.1) = List.range' n l.length := by
  intro l
  induction l with
  | nil => intro n; rfl
  | cons x xs ih =>
    intro n
    simp [List.enumFrom, List.range'_succ, ih]

theorem enum_map_fst' {α : Type} (l : List α) :
    l.enum.map (fun p => p.1) = List.range l.length := by
  rw [show l.enum = List.enumFrom 0 l from rfl, enumFrom_map_fst,
    List.range_eq_range']

theorem buildChunks_chunk_index (E : Env) (f sid : Nat) (cts : List Text) :
    (buildChunks E f sid cts).map (fun c => c.chunk_index) =
      List.range (cts.zip (EmbeddingService.generate_embeddings E cts)).length := by
  rw [show (buildChunks E f sid cts).map (fun c => c.chunk_index) =
    ((cts.zip (EmbeddingService.generate_embeddings E cts)).enum.map
      (fun p => p.1)) from by simp only [buildChunks, List.map_map]; rfl]
  exact enum_map_fst' _

theorem processBlocks_order_index (E : Env) (vid : Nat) :
    ∀ (bs : List Block) (fresh idx : Nat),
      (processBlocks E vid fresh idx bs).2.1.map (fun s => s.order_index) =
        List.range' idx bs.length := by
  intro bs
  induction bs with
  | nil => intro fresh idx; rfl
  | cons b rest ih =>
    intro fresh idx
    simp [processBlocks, List.range'_succ, ih]

theorem processBlocks_section_type (E : Env) (vid : Nat) :
    ∀ (bs : List Block) (fresh idx : Nat),
      (processBlocks E vid fresh idx bs).2.1.map (fun s => s.section_type) =
        bs.map (fun b => b.type) := by
  intro bs
  induction bs with
  | nil => intro fresh idx; rfl
  | cons b rest ih =>
    intro fresh idx
    simp [processBlocks, ih]

theorem processBlocks_text (E : Env) (vid : Nat) :
    ∀ (bs : List Block) (fresh idx : Nat),
      (processBlocks E vid fresh idx bs).2.1.map (fun s => s.text) =
        bs.map (fun b => b.text) := by
  intro bs
  induction bs with
  | nil => intro fresh idx; rfl
  | cons b rest ih =>
    intro fresh idx
    simp [processBlocks, ih]

theorem processBlocks_version_id (E : Env) (vid : Nat) :
    ∀ (bs : List Block) (fresh idx : Nat),
      ∀ s ∈ (processBlocks E vid fresh idx bs).2.1, s.document_version_id = vid := by
  intro bs
  induction bs with
  | nil => intro fresh idx s hs; simp [processBlocks] at hs
  | cons b rest ih =>
    intro fresh idx s hs
    simp only [processBlocks, List.mem_cons] at hs
    rcases hs with rfl | hs
    · rfl
    · exact ih _ _ s hs

theorem processBlocks_section_id_lb (E : Env) (vid : Nat) :
    ∀ (bs : List Block) (fresh idx : Nat),
      ∀ s ∈ (processBlocks E vid fresh idx bs).2.1, fresh ≤ s.id := by
  intro bs
  induction bs with
  | nil => intro fresh idx s hs; simp [processBlocks] at hs
  | cons b rest ih =>
    intro fresh idx s hs
    simp only [processBlocks, List.mem_cons] at hs
    rcases hs with rfl | hs
    · exact le_rfl
    · exact le_trans (by omega) (ih _ _ s hs)

theorem processBlocks_chunk_sid_lb (E : Env) (vid : Nat) :
    ∀ (bs : List Block) (fresh idx : Nat),
      ∀ c ∈ (processBlocks E vid fresh idx bs).2.2, fresh ≤ c.section_id := by
  intro bs
  induction bs with
  | nil => intro fresh idx c hc; simp [processBlocks] at hc
  | cons b rest ih =>
    intro fresh idx c hc
    simp only [processBlocks, List.mem_append] at hc
    rcases hc with hc | hc
    · rcases hb : b.text.isEmpty with _ | _
      · rw [hb] at hc
        simp only [if_false, Bool.false_eq_true] at hc
        have := buildChunks_section_id E (fresh + 1) fresh
          (EmbeddingService.chunk_text E none b.text) c hc
        omega
      · rw [hb] at hc
        simp at hc
    · exact le_trans (by omega) (ih _ _ c hc)

theorem processBlocks_chunks_of_section (E : Env) (vid : Nat) :
    ∀ (bs : List Block) (fresh idx : Nat),
      ∀ s ∈ (processBlocks E vid fresh idx bs).2.1,
        (processBlocks E vid fresh idx bs).2.2.filter (fun c => c.section_id = s.id) =
          (if s.text.isEmpty then []
           else buildChunks E (s.id + 1) s.id (EmbeddingService.chunk_text E none s.text)) := by
  intro bs
  induction bs with
  | nil => intro fresh idx s hs; simp [processBlocks] at hs
  | cons b rest ih =>
    intro fresh idx s hs
    simp only [processBlocks, List.mem_cons] at hs
    simp only [processBlocks, List.filter_append]
    rcases hs with rfl | hs
    · -- `s` is the head section, whose id is `fresh`
      have htail : ((processBlocks E vid
          (fresh + 1 + (if b.text.isEmpty then []
            else buildChunks E (fresh + 1) fresh
              (EmbeddingService.chunk_text E none b.text)).length)
          (idx + 1) rest).2.2.filter (fun c => c.section_id = fresh)) = [] := by
        rw [List.filter_eq_nil_iff]
        intro c hc
        have := processBlocks_chunk_sid_lb E vid rest _ (idx + 1) c hc
        simp only [decide_eq_true_eq]
        omega
      have hhead : ((if b.text.isEmpty then []
          else buildChunks E (fresh + 1) fresh
            (EmbeddingService.chunk_text E none b.text)).filter
          (fun c => c.section_id = fresh)) =
          (if b.text.isEmpty then []
           else buildChunks E (fresh + 1) fresh
             (EmbeddingService.chunk_text E none b.text)) := by
        rw [List.filter_eq_self]
        intro c hc
        rcases hb : b.text.isEmpty with _ | _
        · rw [hb] at hc
          simp only [if_false, Bool.false_eq_true] at hc
          have := buildChunks_section_id E (fresh + 1) fresh
            (EmbeddingService.chunk_text E none b.text) c hc
          simp [this]
        · rw [hb] at hc
          simp at hc
      simp only [htail, hhead, List.append_nil]
    · -- `s` lies in the tail sections, whose ids are at least `fresh + 1 + _`
      have hsid := processBlocks_section_id_lb E vid rest _ (idx + 1) s hs
      have hhead : ((if b.text.isEmpty then []
          else buildChunks E (fresh + 1) fresh
            (EmbeddingService.chunk_text E none b.text)).filter
          (fun c => c.section_id = s.id)) = [] := by
        rw [List.filter_eq_nil_iff]
        intro c hc
        rcases hb : b.text.isEmpty with _ | _
        · rw [hb] at hc
          simp only [if_false, Bool.false_eq_true] at hc
          have := buildChunks_section_id E (fresh + 1) fresh
            (EmbeddingService.chunk_text E none b.text) c hc
          simp only [decide_eq_true_eq]
          omega
        · rw [hb] at hc
          simp at hc
      simp only [hhead, List.nil_append]
      exact ih _ _ s hs

theorem processBlocks_token_count (E : Env) (vid : Nat) :
    ∀ (bs : List Block) (fresh idx : Nat),
      ∀ c ∈ (processBlocks E vid fresh idx bs).2.2,
        c.token_count = EmbeddingService.count_tokens E c.text := by
  intro bs
  induction bs with
  | nil => intro fresh idx c hc; simp [processBlocks] at hc
  | cons b rest ih =>
    intro fresh idx c hc
    simp only [processBlocks, List.mem_append] at hc
    rcases hc with hc | hc
    · rcases hb : b.text.isEmpty with _ | _
      · rw [hb] at hc
        simp only [if_false, Bool.false_eq_true] at hc
        exact buildChunks_token_count E (fresh + 1) fresh
          (EmbeddingService.chunk_text E none b.text) c hc
      · rw [hb] at hc
        simp at hc
    · exact ih _ _ c hc

/-! ## C10: dense section and chunk indices, token counts -/

/-- C10: after processing a discovered document, the `DocumentSection`s
inserted for the new version carry `order_index` values forming the dense
range `0..N−1` in the order (and with the types and texts) of the parser's
`text_blocks`; for every inserted section, the `EmbeddingChunk`s attached to
it carry `chunk_index` values dense from 0 in chunk order, and every chunk
with its `section_id` has `token_count` equal to the tokenizer's count of
that chunk's text. -/
theorem C10_dense_indices (E : Env) (st : SysState) (docId : Nat) (url : String)
    (content : Bytes) (ctype : Text)
    (hnet : E.net url = some (content, ctype))
    (hsec : ∀ s ∈ st.db.sections, s.document_version_id < st.fresh)
    (hch : ∀ c ∈ st.db.chunks, c.section_id < st.fresh) :
    ((process_discovered_document E st docId url).db.sections.filter
        (fun s => s.document_version_id = st.fresh)).map (fun s => s.order_index) =
      List.range (Parser.parse E content ctype).text_blocks.length ∧
    ((process_discovered_document E st docId url).db.sections.filter
        (fun s => s.document_version_id = st.fresh)).map (fun s => s.section_type) =
      (Parser.parse E content ctype).text_blocks.map (fun b => b.type) ∧
    ((process_discovered_document E st docId url).db.sections.filter
        (fun s => s.document_version_id = st.fresh)).map (fun s => s.text) =
      (Parser.parse E content ctype).text_blocks.map (fun b => b.text) ∧
    (∀ s ∈ (process_discovered_document E st docId url).db.sections.filter
        (fun s => s.document_version_id = st.fresh),
      (∃ n, ((process_discovered_document E st docId url).db.chunks.filter
          (fun c => c.section_id = s.id)).map (fun c => c.chunk_index) = List.range n) ∧
      (∀ c ∈ (process_discovered_document E st docId url).db.chunks,
        c.section_id = s.id →
          c.token_count = EmbeddingService.count_tokens E c.text)) := by
  have hfilter :
      (process_discovered_document E st docId url).db.sections.filter
        (fun s => s.document_version_id = st.fresh) =
      (processBlocks E st.fresh (st.fresh + 1) 0
        (Parser.parse E content ctype).text_blocks).2.1 := by
    simp only [process_discovered_document, FetcherPool.fetch_document, hnet,
      StorageService.save, StorageService.calculate_hash, List.filter_append]
    rw [List.filter_eq_nil_iff.2 (fun s hs => by
        have := hsec s hs
        simp only [decide_eq_true_eq]
        omega),
      List.filter_eq_self.2 (fun s hs => by
        have := processBlocks_version_id E st.fresh _ _ _ s hs
        simp [this]),
      List.nil_append]
  have hchunks :
      (process_discovered_document E st docId url).db.chunks =
      st.db.chunks ++ (processBlocks E st.fresh (st.fresh + 1) 0
        (Parser.parse E content ctype).text_blocks).2.2 := by
    simp only [process_discovered_document, FetcherPool.fetch_document, hnet,
      StorageService.save, StorageService.calculate_hash]
  refine ⟨?_, ?_, ?_, ?_⟩
  · rw [hfilter, processBlocks_order_index, List.range_eq_range']
  · rw [hfilter, processBlocks_section_type]
  · rw [hfilter, processBlocks_text]
  · intro s hs
    rw [hfilter] at hs
    have hs_lb := processBlocks_section_id_lb E st.fresh _ _ _ s hs
    constructor
    · rw [hchunks, List.filter_append]
      rw [List.filter_eq_nil_iff.2 (fun c hc => by
          have := hch c hc
          simp only [decide_eq_true_eq]
          omega),
        List.nil_append]
      rw [processBlocks_chunks_of_section E st.fresh _ _ _ s hs]
      rcases hb : s.text.isEmpty with _ | _
      · simp only [Bool.false_eq_true, if_false]
        exact ⟨_, buildChunks_chunk_index E (s.id + 1) s.id
          (EmbeddingService.chunk_text E none s.text)⟩
      · exact ⟨0, by simp⟩
    · intro c hc hcs
      rw [hchunks, List.mem_append] at hc
      rcases hc with hc | hc
      · have := hch c hc
        omega
      · exact processBlocks_token_count E st.fresh _ _ _ c hc

/-- C10 witness: the dense-index invariant instantiated at the concrete
happy-path environment and the empty state. -/
theorem C10_witness :
    ((process_discovered_document witnessEnv st0 42 "https://r/Document/42").db.sections.filter
        (fun s => s.document_version_id = st0.fresh)).map (fun s => s.order_index) =
      List.range (Parser.parse witnessEnv [1, 2, 3] ("text/html".toList)).text_blocks.length ∧
    ((process_discovered_document witnessEnv st0 42 "https://r/Document/42").db.sections.filter
        (fun s => s.document_version_id = st0.fresh)).map (fun s => s.section_type) =
      (Parser.parse witnessEnv [1, 2, 3] ("text/html".toList)).text_blocks.map (fun b => b.type) ∧
    ((process_discovered_document witnessEnv st0 42 "https://r/Document/42").db.sections.filter
        (fun s => s.document_version_id = st0.fresh)).map (fun s => s.text) =
      (Parser.parse witnessEnv [1, 2, 3] ("text/html".toList)).text_blocks.map (fun b => b.text) ∧
    (∀ s ∈ (process_discovered_document witnessEnv st0 42 "https://r/Document/42").db.sections.filter
        (fun s => s.document_version_id = st0.fresh),
      (∃ n, ((process_discovered_document witnessEnv st0 42 "https://r/Document/42").db.chunks.filter
          (fun c => c.section_id = s.id)).map (fun c => c.chunk_index) = List.range n) ∧
      (∀ c ∈ (process_discovered_document witnessEnv st0 42 "https://r/Document/42").db.chunks,
        c.section_id = s.id →
          c.token_count = EmbeddingService.count_tokens witnessEnv c.text)) :=
  C10_dense_indices witnessEnv st0 42 "https://r/Document/42" [1, 2, 3]
    ("text/html".toList) (by decide) (by decide) (by decide)

/-! ## C1: version numbering and current-version reference -/

theorem le_foldr_max (l : List Nat) (a : Nat) (h : a ∈ l) : a ≤ l.foldr max 0 := by
  induction l with
  | nil => simp at h
  | cons x xs ih =>
    rcases List.mem_cons.mp h with rfl | h
    · exact le_max_left _ _
    · exact le_trans (ih h) (le_max_right _ _)

theorem le_maxVersionNumber (db : Db) (docId : Nat) (v : VersionRec)
    (hv : v ∈ db.versions) (hid : v.document_id = docId) :
    v.version_number ≤ Db.maxVersionNumber db docId := by
  refine le_foldr_max _ _ ?_
  exact List.mem_map_of_mem _ (List.mem_filter.2 ⟨hv, by simp [hid]⟩)

theorem maxVersionNumber_eq_zero (db : Db) (docId : Nat)
    (h : ∀ v ∈ db.versions, v.document_id ≠ docId) :
    Db.maxVersionNumber db docId = 0 := by
  unfold Db.maxVersionNumber
  rw [List.filter_eq_nil_iff.2 (fun v hv => by simp [h v hv])]
  rfl

/-- C1: on the discovery path (processing a not-yet-seen document id) and on
the reconciliation path, the `DocumentVersion` the coordinator inserts has
`version_number` equal to 1 plus the maximum `version_number` among the
document's existing versions (1 when there are none), and afterwards the
document's `current_version_id` refers to the version with the maximum
`version_number` among its versions. -/
theorem C1_version_numbering (E : Env) (st : SysState) (docId : Nat)
    (url : String) (old : VersionRec)
    (hnetD : (E.net url).isSome)
    (hdoc : ∀ d ∈ st.db.documents, d.id ≠ docId)
    (hver : ∀ v ∈ st.db.versions, v.document_id ≠ docId)
    (hnetR : (E.net old.source_url).isSome)
    (hfind : (st.db.documents.find? (fun d => d.id = old.document_id)).isSome) :
    (∃ v : VersionRec,
      (process_discovered_document E st docId url).db.versions =
        st.db.versions ++ [v] ∧
      v.document_id = docId ∧
      v.version_number = Db.maxVersionNumber st.db docId + 1 ∧
      v.version_number = 1 ∧
      currentRefIsMax (process_discovered_document E st docId url).db docId) ∧
    (∃ v : VersionRec,
      (process_changed_document E st old).db.versions = st.db.versions ++ [v] ∧
      v.document_id = old.document_id ∧
      v.version_number = Db.maxVersionNumber st.db old.document_id + 1 ∧
      currentRefIsMax (process_changed_document E st old).db old.document_id) := by
  constructor
  · obtain ⟨⟨content, ctype⟩, hp⟩ := Option.isSome_iff_exists.mp hnetD
    simp only [process_discovered_document, FetcherPool.fetch_document, hp,
      StorageService.save, StorageService.calculate_hash]
    refine ⟨_, rfl, rfl, ?_, rfl, ?_⟩
    · rw [maxVersionNumber_eq_zero st.db docId hver]
    · intro d hd hid
      rcases List.mem_append.mp hd with hd | hd
      · exact absurd hid (hdoc d hd)
      · simp only [List.mem_singleton] at hd
        subst hd
        refine
          ⟨{ id := st.fresh, document_id := docId, version_number := 1,
             source_url := url, source_hash := E.sha content,
             raw_storage_path := ⟨docId, st.clock,
               if containsLower ['p', 'd', 'f'] ctype then "pdf" else "html"⟩ },
           ?_, ?_, ?_⟩
        · exact List.mem_filter.2 ⟨List.mem_append_right _ (List.mem_singleton.2 rfl),
            by simp⟩
        · rfl
        · intro w hw
          rcases List.mem_append.mp (List.mem_filter.1 hw).1 with hw' | hw'
          · exact absurd (by simpa using (List.mem_filter.1 hw).2) (hver w hw')
          · simp only [List.mem_singleton] at hw'
            subst hw'
            exact le_rfl
  · obtain ⟨⟨content, ctype⟩, hp⟩ := Option.isSome_iff_exists.mp hnetR
    obtain ⟨doc, hdocfind⟩ := Option.isSome_iff_exists.mp hfind
    simp only [process_changed_document, FetcherPool.fetch_document, hp,
      StorageService.save, StorageService.calculate_hash, hdocfind]
    refine ⟨_, rfl, rfl, rfl, ?_⟩
    intro d hd hid
    obtain ⟨d0, hd0, hmap⟩ := List.mem_map.1 hd
    refine
      ⟨{ id := st.fresh, document_id := old.document_id,
         version_number := Db.maxVersionNumber st.db old.document_id + 1,
         source_url := old.source_url, source_hash := E.sha content,
         raw_storage_path := ⟨old.document_id, st.clock,
           if containsLower ['p', 'd', 'f'] ctype then "pdf" else "html"⟩ },
       ?_, ?_, ?_⟩
    · exact List.mem_filter.2 ⟨List.mem_append_right _ (List.mem_singleton.2 rfl),
        by simp⟩
    · by_cases hc : d0.id = old.document_id
      · simp only [hc, if_true] at hmap
        subst hmap
        rfl
      · simp only [hc, if_false] at hmap
        subst hmap
        exact absurd hid hc
    · intro w hw
      rcases List.mem_append.mp (List.mem_filter.1 hw).1 with hw' | hw'
      · have hwid : w.document_id = old.document_id := by
          simpa using (List.mem_filter.1 hw).2
        exact le_trans (le_maxVersionNumber st.db old.document_id w hw' hwid)
          (Nat.le_succ _)
      · simp only [List.mem_singleton] at hw'
        subst hw'
        exact le_rfl

/-- C1 witness: version numbering at the concrete environment and a state
holding one prior document (id 7, one version) while discovering the fresh
document id 42. -/
theorem C1_witness :
    (∃ v : VersionRec,
      (process_discovered_document witnessEnv stW 42 "https://r/Document/42").db.versions =
        stW.db.versions ++ [v] ∧
      v.document_id = 42 ∧
      v.version_number = Db.maxVersionNumber stW.db 42 + 1 ∧
      v.version_number = 1 ∧
      currentRefIsMax (process_discovered_document witnessEnv stW 42 "https://r/Document/42").db 42) ∧
    (∃ v : VersionRec,
      (process_changed_document witnessEnv stW
        ⟨1, 7, 1, "https://r/Document/7", witnessEnv.sha [9], ⟨7, 0, "html"⟩⟩).db.versions =
        stW.db.versions ++ [v] ∧
      v.document_id = 7 ∧
      v.version_number = Db.maxVersionNumber stW.db 7 + 1 ∧
      currentRefIsMax (process_changed_document witnessEnv stW
        ⟨1, 7, 1, "https://r/Document/7", witnessEnv.sha [9], ⟨7, 0, "html"⟩⟩).db 7) :=
  C1_version_numbering witnessEnv stW 42 "https://r/Document/42"
    ⟨1, 7, 1, "https://r/Document/7", witnessEnv.sha [9], ⟨7, 0, "html"⟩⟩
    (by decide) (by decide) (by decide) (by decide) (by decide)

/-! ## C2: stored bytes hash to the recorded source hash -/

theorem load_cons_self (store : Store) (p : StoragePath) (c : Bytes) :
    StorageService.load ((p, c) :: store) p = some c := by
  simp [StorageService.load]

theorem load_cons_ne (store : Store) (p q : StoragePath) (c : Bytes)
    (h : q ≠ p) : StorageService.load ((p, c) :: store) q =
      StorageService.load store q := by
  simp only [StorageService.load, List.find?]
  rw [show (decide (p = q)) = false from by simp [Ne.symm h]]

/-- C2: processing a document (on the discovery path or the reconciliation
path) preserves and establishes the invariant that for every stored
`DocumentVersion`, loading the bytes at its `raw_storage_path` and hashing
them yields exactly its `source_hash`: the fetcher hashes the same byte
string it saves, and the coordinator records that hash and that path. -/
theorem C2_hash_invariant (E : Env) (st : SysState) (docId : Nat)
    (url : String) (old : VersionRec)
    (hstamp : ∀ v ∈ st.db.versions, v.raw_storage_path.stamp < st.clock)
    (hok : ∀ v ∈ st.db.versions, hashOk E st.store v) :
    (∀ v ∈ (process_discovered_document E st docId url).db.versions,
      hashOk E (process_discovered_document E st docId url).store v) ∧
    (∀ v ∈ (process_changed_document E st old).db.versions,
      hashOk E (process_changed_document E st old).store v) := by
  constructor
  · cases hnet : E.net url with
    | none =>
      simp only [process_discovered_document, FetcherPool.fetch_document, hnet]
      exact hok
    | some p =>
      obtain ⟨content, ctype⟩ := p
      simp only [process_discovered_document, FetcherPool.fetch_document, hnet,
        StorageService.save, StorageService.calculate_hash]
      intro v hv
      rcases List.mem_append.mp hv with hv | hv
      · have hne : v.raw_storage_path ≠
            (⟨docId, st.clock, if containsLower ['p', 'd', 'f'] ctype then "pdf"
              else "html"⟩ : StoragePath) := by
          intro hcontra
          have := hstamp v hv
          rw [hcontra] at this
          simp at this
        unfold hashOk
        rw [load_cons_ne _ _ _ _ hne]
        exact hok v hv
      · simp only [List.mem_singleton] at hv
        subst hv
        unfold hashOk
        rw [load_cons_self]
        rfl
  · cases hnet : E.net old.source_url with
    | none =>
      simp only [process_changed_document, FetcherPool.fetch_document, hnet]
      exact hok
    | some p =>
      obtain ⟨content, ctype⟩ := p
      cases hfind : st.db.documents.find? (fun d => d.id = old.document_id) with
      | none =>
        simp only [process_changed_document, FetcherPool.fetch_document, hnet,
          StorageService.save, StorageService.calculate_hash, hfind]
        intro v hv
        have hne : v.raw_storage_path ≠
            (⟨old.document_id, st.clock,
              if containsLower ['p', 'd', 'f'] ctype then "pdf" else "html"⟩ : StoragePath) := by
          intro hcontra
          have := hstamp v hv
          rw [hcontra] at this
          simp at this
        unfold hashOk
        rw [load_cons_ne _ _ _ _ hne]
        exact hok v hv
      | some doc =>
        simp only [process_changed_document, FetcherPool.fetch_document, hnet,
          StorageService.save, StorageService.calculate_hash, hfind]
        intro v hv
        rcases List.mem_append.mp hv with hv | hv
        · have hne : v.raw_storage_path ≠
              (⟨old.document_id, st.clock,
                if containsLower ['p', 'd', 'f'] ctype then "pdf" else "html"⟩ : StoragePath) := by
            intro hcontra
            have := hstamp v hv
            rw [hcontra] at this
            simp at this
          unfold hashOk
          rw [load_cons_ne _ _ _ _ hne]
          exact hok v hv
        · simp only [List.mem_singleton] at hv
          subst hv
          unfold hashOk
          rw [load_cons_self]
          rfl

/-- C2 witness: the hash invariant at the concrete environment and the state
holding one prior version whose bytes sit in the store. -/
theorem C2_witness :
    (∀ v ∈ (process_discovered_document witnessEnv stW 42 "https://r/Document/42").db.versions,
      hashOk witnessEnv
        (process_discovered_document witnessEnv stW 42 "https://r/Document/42").store v) ∧
    (∀ v ∈ (process_changed_document witnessEnv stW
        ⟨1, 7, 1, "https://r/Document/7", witnessEnv.sha [9], ⟨7, 0, "html"⟩⟩).db.versions,
      hashOk witnessEnv
        (process_changed_document witnessEnv stW
          ⟨1, 7, 1, "https://r/Document/7", witnessEnv.sha [9], ⟨7, 0, "html"⟩⟩).store v) :=
  C2_hash_invariant witnessEnv stW 42 "https://r/Document/42"
    ⟨1, 7, 1, "https://r/Document/7", witnessEnv.sha [9], ⟨7, 0, "html"⟩⟩
    (by decide) (by decide)

/-! ## C3: discovery and reconciliation idempotence -/

theorem discover_link_not_existing (db : Db) (u : String) (d : Discovered)
    (h : ChangeMonitor.discover_link db u = some d) :
    ∀ v ∈ db.versions, v.source_url ≠ d.url := by
  unfold ChangeMonitor.discover_link at h
  rcases hx : ChangeMonitor.extract_doc_id_from_url u with _ | docId <;> rw [hx] at h
  · simp at h
  · rcases hf : db.versions.find? (fun v => v.source_url = u) with _ | w
    · rw [hf] at h
      have h' : some (⟨docId, u⟩ : Discovered) = some d := by simpa using h
      have hd : d = ⟨docId, u⟩ := (Option.some.inj h').symm
      subst hd
      intro v hv
      have hne := List.find?_eq_none.mp hf v hv
      simp only [decide_eq_true_eq] at hne
      exact hne
    · rw [hf] at h
      simp at h

theorem check_false_of_no_change (E : Env) (v : VersionRec)
    (h : ∀ c ct, E.net v.source_url = some (c, ct) → E.sha c = v.source_hash) :
    ChangeMonitor.check_for_changes E v = false := by
  unfold ChangeMonitor.check_for_changes
  cases hnet : E.net v.source_url with
  | none => rfl
  | some p =>
    obtain ⟨c, ct⟩ := p
    simp [StorageService.calculate_hash, h c ct hnet]

theorem foldl_no_change (E : Env) :
    ∀ (l : List VersionRec) (st : SysState),
      (∀ v ∈ l, ChangeMonitor.check_for_changes E v = false) →
      l.foldl (fun s v =>
        if ChangeMonitor.check_for_changes E v then process_changed_document E s v
        else s) st = st := by
  intro l
  induction l with
  | nil => intro st _; rfl
  | cons v vs ih =>
    intro st h
    simp only [List.foldl_cons, h v (List.mem_cons_self v vs), if_false,
      Bool.false_eq_true]
    exact ih st (fun w hw => h w (List.mem_cons_of_mem v hw))

/-- C3: discovery omits every URL whose `source_url` already has a
`DocumentVersion`; and when every re-fetch returns bytes whose SHA-256
equals the stored `source_hash`, `check_for_changes` returns `false` on
every version and running the reconciliation loop twice appends zero new
versions (the state is unchanged). -/
theorem C3_idempotence (db : Db) (itemLinks : List String) (baseUrl : String)
    (documentLinks : List String) (E : Env) (st : SysState)
    (hnochange : ∀ v ∈ st.db.versions, ∀ c ct,
      E.net v.source_url = some (c, ct) → E.sha c = v.source_hash) :
    (∀ d ∈ ChangeMonitor.discover_documents db itemLinks baseUrl documentLinks,
      ∀ v ∈ db.versions, v.source_url ≠ d.url) ∧
    (∀ v ∈ st.db.versions, ChangeMonitor.check_for_changes E v = false) ∧
    run_reconciliation_cycle E (run_reconciliation_cycle E st) = st := by
  have hcheck : ∀ v ∈ st.db.versions, ChangeMonitor.check_for_changes E v = false :=
    fun v hv => check_false_of_no_change E v (hnochange v hv)
  have honce : run_reconciliation_cycle E st = st := by
    unfold run_reconciliation_cycle
    exact foldl_no_change E (st.db.versions.take 100) st
      (fun v hv => hcheck v (List.mem_of_mem_take hv))
  refine ⟨?_, hcheck, ?_⟩
  · intro d hd
    unfold ChangeMonitor.discover_documents at hd
    rcases List.mem_append.mp hd with hd | hd
    · unfold ChangeMonitor.discover_from_rss at hd
      obtain ⟨u, _, hu⟩ := List.mem_filterMap.mp hd
      exact discover_link_not_existing db u d hu
    · unfold ChangeMonitor.discover_from_search at hd
      obtain ⟨u, _, hu⟩ := List.mem_filterMap.mp hd
      exact discover_link_not_existing db _ d hu
  · rw [honce, honce]

/-- C3 witness: idempotence at the concrete environment, whose re-fetch of
the single stored version returns the identical bytes `[9]`. -/
theorem C3_witness :
    (∀ d ∈ ChangeMonitor.discover_documents stW.db
        ["https://r/Document/7"] "https://r" ["/Document/7"],
      ∀ v ∈ stW.db.versions, v.source_url ≠ d.url) ∧
    (∀ v ∈ stW.db.versions, ChangeMonitor.check_for_changes witnessEnv v = false) ∧
    run_reconciliation_cycle witnessEnv (run_reconciliation_cycle witnessEnv stW) = stW :=
  C3_idempotence stW.db ["https://r/Document/7"] "https://r" ["/Document/7"]
    witnessEnv stW
    (by
      intro v hv c ct h
      simp only [stW, List.mem_singleton] at hv
      subst hv
      have hnet9 : witnessEnv.net "https://r/Document/7" =
          some ([9], "text/html".toList) := by decide
      rw [hnet9] at h
      have h2 := Option.some.inj h
      have hc : c = [9] := (congrArg Prod.fst h2).symm
      subst hc
      decide)

/-! ## C8: parse failure is non-fatal -/

/-- C8: when parsing fails (the HTML text extraction raises on a non-PDF
content type, or the PDF text extraction raises on a PDF content type), the
parser returns — never raises — the fully empty structure with confidence
`0.0` and empty `text_blocks`, and the coordinator still persists a
`DocumentVersion` for the fetched bytes with zero sections and zero
embedding chunks. -/
theorem C8_parse_failure_nonfatal (E : Env) (st : SysState) (docId : Nat)
    (url : String) (content : Bytes) (ctype : Text)
    (hnet : E.net url = some (content, ctype))
    (hfail : (containsLower ['p', 'd', 'f'] ctype = false ∧
        E.soupText content = Except.error ()) ∨
      (containsLower ['p', 'd', 'f'] ctype = true ∧
        E.pdfText content = Except.error ())) :
    Parser.parse E content ctype = Parser.empty_structure ∧
    Parser.empty_structure.confidence = 0 ∧
    Parser.empty_structure.text_blocks = [] ∧
    (∃ v : VersionRec,
      (process_discovered_document E st docId url).db.versions =
        st.db.versions ++ [v] ∧
      (process_discovered_document E st docId url).db.sections = st.db.sections ∧
      (process_discovered_document E st docId url).db.chunks = st.db.chunks) := by
  have hparse : Parser.parse E content ctype = Parser.empty_structure := by
    rcases hfail with ⟨h1, h2⟩ | ⟨h1, h2⟩
    · simp [Parser.parse, h1, Parser.parse_html, h2, Except.map]
    · simp [Parser.parse, h1, Parser.parse_pdf, h2]
  refine ⟨hparse, rfl, rfl, ?_⟩
  simp only [process_discovered_document, FetcherPool.fetch_document, hnet,
    StorageService.save, StorageService.calculate_hash, hparse]
  exact ⟨_, rfl, by simp [Parser.empty_structure, processBlocks],
    by simp [Parser.empty_structure, processBlocks]⟩

/-- C8 witness: parse failure at the concrete environment whose soup text
extraction raises. -/
theorem C8_witness :
    Parser.parse witnessEnvParseFail [1, 2, 3] ("text/html".toList) =
      Parser.empty_structure ∧
    Parser.empty_structure.confidence = 0 ∧
    Parser.empty_structure.text_blocks = [] ∧
    (∃ v : VersionRec,
      (process_discovered_document witnessEnvParseFail st0 42
        "https://r/Document/42").db.versions = st0.db.versions ++ [v] ∧
      (process_discovered_document witnessEnvParseFail st0 42
        "https://r/Document/42").db.sections = st0.db.sections ∧
      (process_discovered_document witnessEnvParseFail st0 42
        "https://r/Document/42").db.chunks = st0.db.chunks) :=
  C8_parse_failure_nonfatal witnessEnvParseFail st0 42 "https://r/Document/42"
    [1, 2, 3] ("text/html".toList) (by decide) (Or.inl ⟨by decide, rfl⟩)

/-! ## C9: embedding failure is atomic but silent -/

theorem generate_embeddings_error (E : Env)
    (hfail : ∀ b, E.provider b = Except.error ()) (texts : List Text) :
    EmbeddingService.generate_embeddings E texts = [] := by
  unfold EmbeddingService.generate_embeddings
  cases texts with
  | nil => rfl
  | cons t ts =>
    simp only [List.isEmpty_cons, Bool.false_eq_true, if_false]
    have herr : (chunksOf E.batch_size (t :: ts)).mapM E.provider =
        Except.error () := by
      have hcons : chunksOf E.batch_size (t :: ts) =
          (t :: ts.take (E.batch_size - 1)) ::
            chunksOfGo E.batch_size ts.length (ts.drop (E.batch_size - 1)) := rfl
      rw [hcons, List.mapM_cons, hfail]
      rfl
    rw [herr]

theorem buildChunks_of_error (E : Env)
    (hfail : ∀ b, E.provider b = Except.error ()) (f sid : Nat) (cts : List Text) :
    buildChunks E f sid cts = [] := by
  simp [buildChunks, generate_embeddings_error E hfail]

theorem processBlocks_of_error (E : Env)
    (hfail : ∀ b, E.provider b = Except.error ()) (vid : Nat) :
    ∀ (bs : List Block) (fresh idx : Nat),
      (processBlocks E vid fresh idx bs).2.2 = [] := by
  intro bs
  induction bs with
  | nil => intro fresh idx; rfl
  | cons b rest ih =>
    intro fresh idx
    simp [processBlocks, buildChunks_of_error E hfail, ih]

theorem mapM_ok_flatten_length (E : Env)
    (hlen : ∀ b vs, E.provider b = Except.ok vs → vs.length = b.length) :
    ∀ (l : List (List Text)) (results : List (List Vec)),
      l.mapM E.provider = Except.ok results →
      results.flatten.length = l.flatten.length := by
  intro l
  induction l with
  | nil =>
    intro results h
    simp only [List.mapM_nil, pure, Except.pure] at h
    cases h
    rfl
  | cons c cs ih =>
    intro results h
    simp only [List.mapM_cons] at h
    cases hp : E.provider c with
    | error e => rw [hp] at h; simp [bind, Except.bind] at h
    | ok vs =>
      rw [hp] at h
      cases hm : cs.mapM E.provider with
      | error e =>
        rw [hm] at h
        simp [bind, Except.bind, Except.map] at h
      | ok rs =>
        rw [hm] at h
        simp only [bind, Except.bind, pure, Except.pure, Except.map] at h
        cases h
        simp [List.length_append, hlen c vs hp, ih rs hm]

/-- C9 counterexample: with an embedding provider that raises, the batch
returns the empty list, the document's sections are still persisted with
zero chunks, and the coordinator publishes only `fetched` and `parsed` — no
`failed` event of any stage (in particular none with stage `embed`) — so the
failure is not propagated as a `failed(stage=embed)` event. -/
theorem C9_counterexample :
    EmbeddingService.generate_embeddings witnessEnvEmbedFail [['t']] = [] ∧
    (process_discovered_document witnessEnvEmbedFail st0 42
      "https://r/Document/42").db.sections ≠ [] ∧
    (process_discovered_document witnessEnvEmbedFail st0 42
      "https://r/Document/42").db.chunks = [] ∧
    (process_discovered_document witnessEnvEmbedFail st0 42
      "https://r/Document/42").events =
      [Event.fetched 42 ⟨42, 0, "html"⟩ (witnessEnvEmbedFail.sha [1, 2, 3]),
       Event.parsed 42 100] := by
  refine ⟨rfl, ?_, rfl, rfl⟩
  decide

/-- C9 (amended): the embedding batch fails atomically — for every input
list of texts the result is either one vector per input text or the empty
list, never a partial prefix treated as success — and on provider error the
caller does not retry, but the failure is silent rather than propagated: no
`failed` event is added (in particular none with stage `embed`), the only
events published for the document are `fetched` and `parsed`, and zero
embedding chunks are inserted. -/
theorem C9_embedding_atomic_but_silent (E Efail : Env) (texts : List Text)
    (st : SysState) (docId : Nat) (url : String) (content : Bytes) (ctype : Text)
    (_hbs : 0 < E.batch_size)
    (hlen : ∀ b vs, E.provider b = Except.ok vs → vs.length = b.length)
    (hfail : ∀ b, Efail.provider b = Except.error ())
    (hnet : Efail.net url = some (content, ctype)) :
    (EmbeddingService.generate_embeddings E texts = [] ∨
      (EmbeddingService.generate_embeddings E texts).length = texts.length) ∧
    (process_discovered_document Efail st docId url).db.chunks = st.db.chunks ∧
    (process_discovered_document Efail st docId url).events =
      st.events ++
        [Event.fetched docId
          ⟨docId, st.clock, if containsLower ['p', 'd', 'f'] ctype then "pdf" else "html"⟩
          (Efail.sha content),
         Event.parsed docId st.fresh] := by
  refine ⟨?_, ?_, ?_⟩
  · unfold EmbeddingService.generate_embeddings
    cases ht : texts.isEmpty with
    | true => simp
    | false =>
      simp only [Bool.false_eq_true, if_false]
      cases hm : (chunksOf E.batch_size texts).mapM E.provider with
      | error e => simp
      | ok results =>
        right
        rw [mapM_ok_flatten_length E hlen _ results hm, chunksOf_flatten]
  · simp only [process_discovered_document, FetcherPool.fetch_document, hnet,
      StorageService.save, StorageService.calculate_hash]
    rw [processBlocks_of_error Efail hfail, List.append_nil]
  · simp only [process_discovered_document, FetcherPool.fetch_document, hnet,
      StorageService.save, StorageService.calculate_hash]

/-- C9 witness: atomicity and silent failure at the concrete environments. -/
theorem C9_witness :
    (EmbeddingService.generate_embeddings witnessEnv [['a'], ['b'], ['c']] = [] ∨
      (EmbeddingService.generate_embeddings witnessEnv [['a'], ['b'], ['c']]).length = 3) ∧
    (process_discovered_document witnessEnvEmbedFail st0 42
      "https://r/Document/42").db.chunks = st0.db.chunks ∧
    (process_discovered_document witnessEnvEmbedFail st0 42
      "https://r/Document/42").events =
      st0.events ++
        [Event.fetched 42
          ⟨42, st0.clock,
            if containsLower ['p', 'd', 'f'] ("text/html".toList) then "pdf" else "html"⟩
          (witnessEnvEmbedFail.sha [1, 2, 3]),
         Event.parsed 42 st0.fresh] :=
  C9_embedding_atomic_but_silent witnessEnv witnessEnvEmbedFail [['a'], ['b'], ['c']]
    st0 42 "https://r/Document/42" [1, 2, 3] ("text/html".toList)
    (by decide)
    (fun b vs h => by
      have hb : witnessEnv.provider b = Except.ok (b.map (fun t => [(t.length : Int)])) := rfl
      rw [hb] at h
      have := Except.ok.inj h
      rw [← this, List.length_map])
    (fun b => rfl) (by decide)

end CourtRegistry
